import Mathlib

/-!
Verification development for the Comet browser-history extractor
(src/extract_comet_history.py).

Modelling conventions:
* Python strings are `List Char`; `String.toList` is used for literals via `str`.
* Python integers are `Int` (identifiers, timestamps) or `Nat` (token counts).
* The JSON serialisation performed by the standard library (`json.dumps`) is
  external to the repository; the serialised character length of an entry is
  abstracted by a parameter `jl : HistoryEntry → Nat`, and the
  token estimator `estimate_tokens` is applied to that length exactly as the
  source does (`max(1, char_count // 4)`).
* The timestamp formatting done by the standard `datetime` library (and the
  IEEE-754 double division inside `_chrome_timestamp_to_datetime`) is likewise
  external; entry assembly takes the converter as a parameter
  `conv : Int → List Char`.
* Character case mapping uses `Char.toLower` / `Char.toUpper`, which agree with
  the Python `str.lower` / `str.upper` on ASCII; no claim depends on the
  behaviour outside ASCII.
-/

/-- Shorthand: a Python string literal as a list of characters. -/
def str (s : String) : List Char := s.toList

/-- Python substring containment, `sub in hay` for strings. -/
def pyIn (sub hay : List Char) : Bool := decide (sub <:+: hay)

/-- Python `str.lower` (ASCII fragment). -/
def pyLower (s : List Char) : List Char := s.map Char.toLower

/-- Python `str.upper` (ASCII fragment). -/
def pyUpper (s : List Char) : List Char := s.map Char.toUpper

/-- Python `str.strip`: drop whitespace from both ends. -/
def pyStrip (s : List Char) : List Char :=
  ((s.dropWhile Char.isWhitespace).reverse.dropWhile Char.isWhitespace).reverse

/-- Python `str.split(sep)` for a single-character separator: always returns at
least one (possibly empty) segment; `"".split(sep) == [""]`.
The inner match on the recursive call is never `[]` (see `splitChar_ne_nil`). -/
def splitChar (sep : Char) : List Char → List (List Char)
  | [] => [[]]
  | c :: rest =>
    match splitChar sep rest with
    | [] => [[]]
    | h :: t => if c = sep then [] :: h :: t else (c :: h) :: t

theorem splitChar_ne_nil (sep : Char) (s : List Char) : splitChar sep s ≠ [] := by
  cases s with
  | nil => simp [splitChar]
  | cons c rest =>
    simp only [splitChar]
    cases splitChar sep rest with
    | nil => simp
    | cons h t =>
      by_cases hc : c = sep <;> simp [hc]

theorem not_mem_of_mem_splitChar {sep : Char} :
    ∀ {s l : List Char}, l ∈ splitChar sep s → sep ∉ l := by
  intro s
  induction s with
  | nil =>
    intro l hl
    simp only [splitChar, List.mem_singleton] at hl
    subst hl; simp
  | cons c rest ih =>
    intro l hl
    simp only [splitChar] at hl
    cases hsp : splitChar sep rest with
    | nil => exact absurd hsp (splitChar_ne_nil sep rest)
    | cons h t =>
      rw [hsp] at hl
      by_cases hc : c = sep
      · simp only [hc, if_true, List.mem_cons] at hl
        rcases hl with h1 | h1 | h1
        · subst h1; simp
        · subst h1; exact ih (by rw [hsp]; exact List.mem_cons_self _ _)
        · exact ih (by rw [hsp]; exact List.mem_cons_of_mem h h1)
      · simp only [hc, if_false, List.mem_cons] at hl
        rcases hl with h1 | h1
        · subst h1
          intro hmem
          rcases List.mem_cons.mp hmem with h2 | h2
          · exact hc h2.symm
          · exact ih (by rw [hsp]; exact List.mem_cons_self h t) h2
        · exact ih (by rw [hsp]; exact List.mem_cons_of_mem h h1)

theorem length_splitChar (sep : Char) :
    ∀ s : List Char, (splitChar sep s).length = s.count sep + 1 := by
  intro s
  induction s with
  | nil => simp [splitChar]
  | cons c rest ih =>
    simp only [splitChar]
    cases hsp : splitChar sep rest with
    | nil => exact absurd hsp (splitChar_ne_nil sep rest)
    | cons h t =>
      by_cases hc : c = sep
      · subst hc
        simp only [if_true]
        rw [hsp] at ih
        simp only [List.length_cons] at ih ⊢
        rw [List.count_cons_self]
        omega
      · simp only [hc, if_false]
        rw [hsp] at ih
        simp only [List.length_cons] at ih ⊢
        rw [List.count_cons_of_ne (Ne.symm hc)]
        omega

/-- `HistoryExtractor._extract_domain` translated from the source: with an
http or https scheme take the third slash-delimited segment, otherwise the
first, lower-cased; the `IndexError` handler yields the literal "unknown". -/
def extract_domain (url : List Char) : List Char :=
  if (str "http://").isPrefixOf url || (str "https://").isPrefixOf url then
    match (splitChar '/' url)[2]? with
    | some seg => pyLower seg
    | none => str "unknown"
  else
    match (splitChar '/' url)[0]? with
    | some seg => pyLower seg
    | none => str "unknown"

/-- ASCII case mapping can only produce the slash character from the slash
character itself (uppercase letters map into the lowercase letters). -/
theorem toLower_eq_slash {c : Char} (h : Char.toLower c = '/') : c = '/' := by
  unfold Char.toLower at h
  by_cases hr : c.toNat >= 65 ∧ c.toNat <= 90
  case pos =>
    rw [if_pos hr] at h
    exfalso
    have h47 : (Char.ofNat (c.toNat + 32)).toNat = 47 := by rw [h]; rfl
    have hv : Char.isValidCharNat (c.toNat + 32) := Or.inl (by omega)
    rw [Char.ofNat, dif_pos hv] at h47
    unfold Char.ofNatAux at h47
    simp only [Char.toNat, UInt32.ofNat', UInt32.toNat, BitVec.toNat_ofNatLt] at h47
    simp only [Char.toNat, UInt32.toNat] at hr
    omega
  case neg =>
    rw [if_neg hr] at h
    exact h

/-- The extracted domain never contains a slash: it is a lower-cased
slash-delimited segment, or the literal "unknown". -/
theorem slash_not_mem_extract_domain (url : List Char) : '/' ∉ extract_domain url := by
  unfold extract_domain
  split
  · cases hget : (splitChar '/' url)[2]? with
    | some seg =>
      intro hmem
      rcases List.mem_map.mp hmem with ⟨c, hc, hlc⟩
      have hcs : c = '/' := toLower_eq_slash hlc
      subst hcs
      exact not_mem_of_mem_splitChar (List.getElem?_mem hget) hc
    | none => decide
  · cases hget : (splitChar '/' url)[0]? with
    | some seg =>
      intro hmem
      rcases List.mem_map.mp hmem with ⟨c, hc, hlc⟩
      have hcs : c = '/' := toLower_eq_slash hlc
      subst hcs
      exact not_mem_of_mem_splitChar (List.getElem?_mem hget) hc
    | none => decide

/-- `HistoryExtractor._categorize_url` translated from the source: ordered
keyword rules over the lower-cased domain (and, for the education rule, the
lower-cased title); first match wins; "Other" when none match. The source
also computes a lower-cased copy of the url that it never reads; it is
omitted here. -/
def categorize_url (url title : List Char) : List Char :=
  let domain := extract_domain url
  let title_lower := pyLower title
  if [str "github", str "stackoverflow", str "dev.to", str "medium", str "hackernews",
      str "reddit.com/r/programming", str "docs.", str "api.", str "developer"].any
        (fun keyword => pyIn keyword domain) then
    str "Development & Tech"
  else if ([str "coursera", str "udemy", str "pluralsight", str "youtube", str "khan",
      str "edx", str "harvard", str "mit", str "university"].any
        (fun keyword => pyIn keyword domain)
      || [str "tutorial", str "course", str "learn", str "education"].any
        (fun keyword => pyIn keyword title_lower)) then
    str "Learning & Education"
  else if [str "slack", str "notion", str "trello", str "jira", str "confluence",
      str "office", str "google.com/drive", str "dropbox"].any
        (fun keyword => pyIn keyword domain) then
    str "Work & Productivity"
  else if [str "news", str "bbc", str "cnn", str "reuters", str "techcrunch",
      str "ars-technica"].any (fun keyword => pyIn keyword domain) then
    str "News & Information"
  else if [str "facebook", str "twitter", str "linkedin", str "instagram",
      str "tiktok"].any (fun keyword => pyIn keyword domain) then
    str "Social Media"
  else if [str "amazon", str "ebay", str "shop", str "store", str "buy",
      str "market"].any (fun keyword => pyIn keyword domain) then
    str "Shopping"
  else if [str "netflix", str "spotify", str "twitch", str "gaming",
      str "entertainment"].any (fun keyword => pyIn keyword domain) then
    str "Entertainment"
  else
    str "Other"

/-- Modelled from the spec (section 4.2): the seven category rules as an
ordered list of (predicate, label) pairs, evaluated in sequence over the
lower-cased domain and lower-cased title. -/
def categoryRules : List ((List Char → List Char → Bool) × List Char) :=
  [ (fun domain _ => [str "github", str "stackoverflow", str "dev.to", str "medium",
      str "hackernews", str "reddit.com/r/programming", str "docs.", str "api.",
      str "developer"].any (fun keyword => pyIn keyword domain),
     str "Development & Tech"),
    (fun domain title_lower => [str "coursera", str "udemy", str "pluralsight",
      str "youtube", str "khan", str "edx", str "harvard", str "mit",
      str "university"].any (fun keyword => pyIn keyword domain)
      || [str "tutorial", str "course", str "learn", str "education"].any
        (fun keyword => pyIn keyword title_lower),
     str "Learning & Education"),
    (fun domain _ => [str "slack", str "notion", str "trello", str "jira",
      str "confluence", str "office", str "google.com/drive", str "dropbox"].any
        (fun keyword => pyIn keyword domain),
     str "Work & Productivity"),
    (fun domain _ => [str "news", str "bbc", str "cnn", str "reuters",
      str "techcrunch", str "ars-technica"].any (fun keyword => pyIn keyword domain),
     str "News & Information"),
    (fun domain _ => [str "facebook", str "twitter", str "linkedin",
      str "instagram", str "tiktok"].any (fun keyword => pyIn keyword domain),
     str "Social Media"),
    (fun domain _ => [str "amazon", str "ebay", str "shop", str "store",
      str "buy", str "market"].any (fun keyword => pyIn keyword domain),
     str "Shopping"),
    (fun domain _ => [str "netflix", str "spotify", str "twitch", str "gaming",
      str "entertainment"].any (fun keyword => pyIn keyword domain),
     str "Entertainment") ]

/-- Modelled from the spec (section 4.2): evaluate an ordered rule list in
sequence and return the label of the first rule that matches. -/
def firstLabel (domain title_lower : List Char) :
    List ((List Char → List Char → Bool) × List Char) → List Char
  | [] => str "Other"
  | rule :: rest =>
    if rule.1 domain title_lower then rule.2 else firstLabel domain title_lower rest

/-- Modelled from the spec (section 4.2): return the label of the first rule
of the ordered list that matches, and "Other" when none match. -/
def categorizeSpec (url title : List Char) : List Char :=
  firstLabel (extract_domain url) (pyLower title) categoryRules

/-- C5: categorization evaluates the seven fixed category rules in the stated
order and returns the label of the first rule that matches, "Other" when none
match; the url https://shop.buy.com with title "Learn tutorial" is classified
Learning & Education (rule 2 fires before rule 6 although the domain contains
"buy"), and the domain docs.github.com is classified Development & Tech. -/
theorem categorize_url_first_match :
    (∀ url title : List Char, categorize_url url title = categorizeSpec url title)
    ∧ categorize_url (str "https://shop.buy.com") (str "Learn tutorial")
        = str "Learning & Education"
    ∧ categorize_url (str "docs.github.com") (str "") = str "Development & Tech" := by
  refine ⟨?_, ?_, ?_⟩
  · intro url title
    simp only [categorize_url, categorizeSpec, categoryRules, firstLabel]
  · set_option maxHeartbeats 2000000 in decide
  · set_option maxHeartbeats 2000000 in decide

/-- The category rules with the two slash-containing keywords removed
(reddit.com/r/programming from rule 1, google.com/drive from rule 3),
otherwise identical to `categorize_url`. -/
def categorize_pruned (url title : List Char) : List Char :=
  let domain := extract_domain url
  let title_lower := pyLower title
  if [str "github", str "stackoverflow", str "dev.to", str "medium", str "hackernews",
      str "docs.", str "api.", str "developer"].any
        (fun keyword => pyIn keyword domain) then
    str "Development & Tech"
  else if ([str "coursera", str "udemy", str "pluralsight", str "youtube", str "khan",
      str "edx", str "harvard", str "mit", str "university"].any
        (fun keyword => pyIn keyword domain)
      || [str "tutorial", str "course", str "learn", str "education"].any
        (fun keyword => pyIn keyword title_lower)) then
    str "Learning & Education"
  else if [str "slack", str "notion", str "trello", str "jira", str "confluence",
      str "office", str "dropbox"].any
        (fun keyword => pyIn keyword domain) then
    str "Work & Productivity"
  else if [str "news", str "bbc", str "cnn", str "reuters", str "techcrunch",
      str "ars-technica"].any (fun keyword => pyIn keyword domain) then
    str "News & Information"
  else if [str "facebook", str "twitter", str "linkedin", str "instagram",
      str "tiktok"].any (fun keyword => pyIn keyword domain) then
    str "Social Media"
  else if [str "amazon", str "ebay", str "shop", str "store", str "buy",
      str "market"].any (fun keyword => pyIn keyword domain) then
    str "Shopping"
  else if [str "netflix", str "spotify", str "twitch", str "gaming",
      str "entertainment"].any (fun keyword => pyIn keyword domain) then
    str "Entertainment"
  else
    str "Other"

/-- A keyword containing a slash never tests positive against the extracted
domain, because the domain is a slash-free segment. -/
theorem pyIn_slash_keyword_extract_domain {k : List Char} (hk : '/' ∈ k)
    (url : List Char) : pyIn k (extract_domain url) = false := by
  unfold pyIn
  rw [decide_eq_false_iff_not]
  intro hinf
  exact slash_not_mem_extract_domain url (hinf.subset hk)

/-- C10: removing the two slash-containing keywords never changes the
categorization result, for every url and title. -/
theorem categorize_url_eq_pruned :
    ∀ url title : List Char, categorize_url url title = categorize_pruned url title := by
  intro url title
  have h1 : pyIn (str "reddit.com/r/programming") (extract_domain url) = false :=
    pyIn_slash_keyword_extract_domain (by decide) url
  have h2 : pyIn (str "google.com/drive") (extract_domain url) = false :=
    pyIn_slash_keyword_extract_domain (by decide) url
  simp only [categorize_url, categorize_pruned, List.any_cons, List.any_nil, h1, h2,
    Bool.false_or, Bool.or_false]

/-- A url carrying an http or https scheme contains at least two slashes, so
splitting on the slash yields at least three segments. -/
theorem three_le_length_splitChar_of_scheme {url : List Char}
    (h : ((str "http://").isPrefixOf url || (str "https://").isPrefixOf url) = true) :
    3 ≤ (splitChar '/' url).length := by
  rw [length_splitChar]
  rw [Bool.or_eq_true] at h
  rcases h with hp | hp
  · obtain ⟨t, ht⟩ := List.isPrefixOf_iff_prefix.mp hp
    rw [← ht, List.count_append]
    have hc : List.count '/' (str "http://") = 2 := by decide
    omega
  · obtain ⟨t, ht⟩ := List.isPrefixOf_iff_prefix.mp hp
    rw [← ht, List.count_append]
    have hc : List.count '/' (str "https://") = 2 := by decide
    omega

/-- C6 counterexample: on the empty string, segment extraction does not fail;
`extract_domain` returns the empty string, not the literal "unknown". -/
theorem extract_domain_empty_not_unknown :
    extract_domain (str "") = str "" ∧ extract_domain (str "") ≠ str "unknown" := by
  decide

/-- C6 amended: segment extraction never fails on a string input, so the
"unknown" fallback branch is unreachable; every url with an http or https
scheme yields its (always present) third slash-delimited segment lower-cased,
any other url yields its (always present) first segment lower-cased, and the
empty string yields the empty string. -/
theorem extract_domain_total :
    (∀ url : List Char, extract_domain url =
      if ((str "http://").isPrefixOf url || (str "https://").isPrefixOf url) = true
      then pyLower ((splitChar '/' url).getD 2 [])
      else pyLower ((splitChar '/' url).getD 0 []))
    ∧ extract_domain (str "") = str "" := by
  constructor
  · intro url
    by_cases hb : ((str "http://").isPrefixOf url || (str "https://").isPrefixOf url) = true
    · have hlt : 2 < (splitChar '/' url).length := three_le_length_splitChar_of_scheme hb
      simp [extract_domain, hb, List.getElem?_eq_getElem hlt]
    · have hlt : 0 < (splitChar '/' url).length := by
        rw [length_splitChar]; omega
      simp [extract_domain, hb, List.getElem?_eq_getElem hlt]
  · decide

/-- One element of the `visits` list of a history entry, as built from a raw
visit row (dictionary with converted time, raw timestamp, duration, transition
code and referrer-or-empty). -/
structure VisitDetail where
  visit_time : List Char
  visit_timestamp : Int
  duration : Int
  transition : Int
  referrer : List Char
deriving DecidableEq

/-- The `HistoryEntry` dataclass of the source. -/
structure HistoryEntry where
  id : Int
  url : List Char
  title : List Char
  visit_count : Int
  typed_count : Int
  last_visit_time : List Char
  last_visit_timestamp : Int
  domain : List Char
  visits : List VisitDetail
  search_terms : List (List Char)
  category : List Char
deriving DecidableEq

/-- `ChunkingHelper.estimate_tokens` translated from the source, applied to
the character count of the JSON serialisation of the object: at least one
token, one token per four characters. -/
def estimate_tokens (char_count : Nat) : Nat := max 1 (char_count / 4)

/-- The token estimate of one entry, with the serialised character length of
the entry abstracted by `jl` (the serialisation itself is done by the external
json library). -/
def entryTokens (jl : HistoryEntry → Nat) (e : HistoryEntry) : Nat :=
  estimate_tokens (jl e)

/-- The per-chunk metadata dictionary built by `chunk_history`. The
extraction_date field (wall-clock time) is external nondeterminism and is not
modelled; `warning` records the presence of the oversize-warning key;
`total_chunks` is absent (`none`) until back-filled after planning. -/
structure ChunkMeta where
  categories : List (List Char)
  chunk_id : Nat
  total_entries : Nat
  estimated_tokens : Nat
  warning : Bool
  total_chunks : Option Nat
deriving DecidableEq

/-- The loop of `HistoryExtractor.chunk_history` translated from the source:
greedy single-pass packing with accumulating current chunk `cur` (token sum
`curTok`, next chunk ordinal `ctr`). An entry whose own estimate exceeds the
limit flushes the current chunk and is emitted alone with the warning flag;
an entry that would overflow a non-empty current chunk flushes it and starts
a new one; otherwise the entry is appended to the current chunk. After the
loop the non-empty current chunk is flushed. -/
def planChunks (jl : HistoryEntry → Nat) (L : Nat) (cats : List (List Char)) :
    List HistoryEntry → List HistoryEntry → Nat → Nat →
    List (List HistoryEntry × ChunkMeta)
  | [], cur, curTok, ctr =>
    if cur ≠ [] then [(cur, ⟨cats, ctr, cur.length, curTok, false, none⟩)] else []
  | e :: rest, cur, curTok, ctr =>
    let et := entryTokens jl e
    if L < et then
      if cur ≠ [] then
        (cur, ⟨cats, ctr, cur.length, curTok, false, none⟩) ::
        ([e], ⟨cats, ctr + 1, 1, et, true, none⟩) ::
        planChunks jl L cats rest [] 0 (ctr + 2)
      else
        ([e], ⟨cats, ctr, 1, et, true, none⟩) ::
        planChunks jl L cats rest [] 0 (ctr + 1)
    else if L < curTok + et ∧ cur ≠ [] then
      (cur, ⟨cats, ctr, cur.length, curTok, false, none⟩) ::
      planChunks jl L cats rest [e] et (ctr + 1)
    else
      planChunks jl L cats rest (cur ++ [e]) (curTok + et) ctr

/-- `HistoryExtractor.chunk_history` translated from the source: empty input
yields no chunks; otherwise the greedy plan, then every metadata record is
back-filled with the total chunk count. The categories list of the shared
base metadata is the distinct categories of the entries (the source builds a
Python set; its iteration order is not modelled as significant). -/
def chunk_history (jl : HistoryEntry → Nat) (L : Nat)
    (entries : List HistoryEntry) : List (List HistoryEntry × ChunkMeta) :=
  if entries = [] then []
  else
    let cats := (entries.map (fun e => e.category)).eraseDups
    let planned := planChunks jl L cats entries [] 0 1
    planned.map (fun c => (c.1, { c.2 with total_chunks := some planned.length }))

theorem map_fst_map_update {A B C : Type} (f : A × B → C) (l : List (A × B)) :
    ((l.map (fun c => (c.1, f c))).map Prod.fst) = l.map Prod.fst := by
  induction l with
  | nil => rfl
  | cons x xs ih => simp [ih]

theorem flatten_planChunks (jl : HistoryEntry → Nat) (L : Nat)
    (cats : List (List Char)) :
    ∀ (rest cur : List HistoryEntry) (curTok ctr : Nat),
    ((planChunks jl L cats rest cur curTok ctr).map Prod.fst).flatten = cur ++ rest := by
  intro rest
  induction rest with
  | nil =>
    intro cur curTok ctr
    by_cases hc : cur = [] <;> simp [planChunks, hc]
  | cons e rest ih =>
    intro cur curTok ctr
    simp only [planChunks]
    by_cases h1 : L < entryTokens jl e
    · by_cases hc : cur = []
      · simp [h1, hc, ih]
      · simp [h1, hc, ih]
    · by_cases h2 : L < curTok + entryTokens jl e ∧ cur ≠ []
      · simp [h1, h2, ih]
      · simp [h1, h2, ih]

/-- C1: for every entry sequence and positive token limit, concatenating the
entry lists of all chunks of `chunk_history` in order reproduces the input
sequence exactly: nothing duplicated, omitted or reordered. -/
theorem chunk_history_concat (jl : HistoryEntry → Nat) (L : Nat)
    (entries : List HistoryEntry) (hL : 0 < L) :
    ((chunk_history jl L entries).map Prod.fst).flatten = entries := by
  unfold chunk_history
  by_cases he : entries = []
  · simp [he]
  · simp only [he, if_false]
    rw [map_fst_map_update, flatten_planChunks]
    simp

theorem planChunks_chunk_bound (jl : HistoryEntry → Nat) (L : Nat)
    (cats : List (List Char)) :
    ∀ (rest cur : List HistoryEntry) (curTok ctr : Nat),
    curTok = (cur.map (entryTokens jl)).sum → curTok ≤ L →
    ∀ c ∈ planChunks jl L cats rest cur curTok ctr,
      (c.2.warning = false → (c.1.map (entryTokens jl)).sum ≤ L)
      ∧ (c.2.warning = true → ∃ e, c.1 = [e] ∧ L < entryTokens jl e) := by
  intro rest
  induction rest with
  | nil =>
    intro cur curTok ctr hsum hle c hc
    by_cases hcur : cur = []
    · simp [planChunks, hcur] at hc
    · simp only [planChunks, hcur, ne_eq, not_false_eq_true, if_true,
        List.mem_singleton] at hc
      subst hc
      refine ⟨fun _ => ?_, fun hw => ?_⟩
      · simpa [← hsum] using hle
      · simp at hw
  | cons e rest ih =>
    intro cur curTok ctr hsum hle c hc
    simp only [planChunks] at hc
    by_cases h1 : L < entryTokens jl e
    · by_cases hcur : cur = []
      · simp only [h1, if_true, hcur, ne_eq, not_true_eq_false, if_false,
          List.mem_cons] at hc
        rcases hc with hc | hc
        · subst hc
          exact ⟨fun hw => by simp at hw, fun _ => ⟨e, rfl, h1⟩⟩
        · exact ih [] 0 (ctr + 1) (by simp) (Nat.zero_le L) c hc
      · simp only [h1, if_true, hcur, ne_eq, not_false_eq_true, List.mem_cons] at hc
        rcases hc with hc | hc | hc
        · subst hc
          refine ⟨fun _ => ?_, fun hw => ?_⟩
          · simpa [← hsum] using hle
          · simp at hw
        · subst hc
          exact ⟨fun hw => by simp at hw, fun _ => ⟨e, rfl, h1⟩⟩
        · exact ih [] 0 (ctr + 2) (by simp) (Nat.zero_le L) c hc
    · by_cases h2 : L < curTok + entryTokens jl e ∧ cur ≠ []
      · rw [if_neg h1, if_pos h2] at hc
        simp only [List.mem_cons] at hc
        rcases hc with hc | hc
        · subst hc
          refine ⟨fun _ => ?_, fun hw => ?_⟩
          · simpa [← hsum] using hle
          · simp at hw
        · exact ih [e] (entryTokens jl e) (ctr + 1) (by simp) (by omega) c hc
      · rw [if_neg h1, if_neg h2] at hc
        have hbound : curTok + entryTokens jl e ≤ L := by
          by_cases hcur : cur = []
          · subst hcur
            simp only [List.map_nil, List.sum_nil] at hsum
            omega
          · rcases not_and_or.mp h2 with h3 | h3
            · omega
            · exact absurd hcur (by simpa using h3)
        exact ih (cur ++ [e]) (curTok + entryTokens jl e) ctr
          (by simp [hsum]) hbound c hc

/-- C2: for every chunk of `chunk_history` under a positive limit, a chunk
without the oversize warning has entry estimates summing to at most the
limit; a chunk with the warning holds exactly one entry whose estimate
exceeds the limit; and any entry whose estimate exceeds the limit sits alone
in a warned chunk. -/
theorem chunk_history_size_bound (jl : HistoryEntry → Nat) (L : Nat)
    (entries : List HistoryEntry) (hL : 0 < L) :
    ∀ c ∈ chunk_history jl L entries,
      (c.2.warning = false → (c.1.map (entryTokens jl)).sum ≤ L)
      ∧ (c.2.warning = true → ∃ e, c.1 = [e] ∧ L < entryTokens jl e)
      ∧ (∀ e ∈ c.1, L < entryTokens jl e → c.2.warning = true ∧ c.1 = [e]) := by
  intro c hc
  unfold chunk_history at hc
  by_cases he : entries = []
  · simp [he] at hc
  · simp only [he, if_false, List.mem_map] at hc
    obtain ⟨p, hp, hpc⟩ := hc
    have hmain := planChunks_chunk_bound jl L
      ((entries.map (fun e => e.category)).eraseDups) entries [] 0 1
      (by simp) (Nat.zero_le L) p hp
    subst hpc
    refine ⟨hmain.1, hmain.2, ?_⟩
    intro e he' hgt
    cases hw : p.2.warning with
    | false =>
      exfalso
      have hsum := hmain.1 hw
      have hmem : entryTokens jl e ∈ p.1.map (entryTokens jl) :=
        List.mem_map_of_mem (entryTokens jl) he'
      have := List.le_sum_of_mem hmem
      omega
    | true =>
      obtain ⟨e0, he0, hgt0⟩ := hmain.2 hw
      rw [he0] at he'
      simp only [List.mem_singleton] at he'
      subst he'
      exact ⟨rfl, he0⟩

/-- C9: after planning completes, the back-filled total_chunks field of every
chunk equals the actual number of chunks returned by `chunk_history`. -/
theorem chunk_history_total_chunks (jl : HistoryEntry → Nat) (L : Nat)
    (entries : List HistoryEntry) :
    ∀ c ∈ chunk_history jl L entries,
      c.2.total_chunks = some (chunk_history jl L entries).length := by
  intro c hc
  unfold chunk_history at hc ⊢
  by_cases he : entries = []
  · simp [he] at hc
  · simp only [he, if_false, List.mem_map] at hc ⊢
    obtain ⟨p, hp, hpc⟩ := hc
    subst hpc
    simp

/-- The groups of the chunk-size pattern: digits, optional fractional digits
after a dot, and an optional K or M unit. -/
structure ChunkSpec where
  intPart : List Char
  fracPart : Option (List Char)
  unit : Option Char
deriving DecidableEq

/-- Tail of the chunk-size pattern after the number: optional whitespace, an
optional K or M unit, then end of string. -/
def finishChunkMatch (ip : List Char) (fp : Option (List Char)) (r : List Char) :
    Option ChunkSpec :=
  match r.dropWhile Char.isWhitespace with
  | [] => some ⟨ip, fp, none⟩
  | [c] => if c = 'K' || c = 'M' then some ⟨ip, fp, some c⟩ else none
  | _ => none

/-- The anchored regular expression of `ChunkingHelper.parse_chunk_size`
(digits, an optional dot-digits group, optional whitespace, an optional K or M
unit) as a direct matcher. Greedy digit runs are exact here because no
backtracked alternative can ever succeed. Digits and whitespace are the ASCII
ones. -/
def matchChunkSize (t : List Char) : Option ChunkSpec :=
  let p := t.span Char.isDigit
  if p.1 = [] then none
  else
    match p.2 with
    | '.' :: r =>
      let q := r.span Char.isDigit
      if q.1 = [] then none
      else finishChunkMatch p.1 (some q.1) q.2
    | r => finishChunkMatch p.1 none r

/-- Decimal digit run to a natural number. -/
def digitsToNat (ds : List Char) : Nat :=
  ds.foldl (fun acc c => acc * 10 + (c.toNat - 48)) 0

/-- The numeric value of the matched groups; the Python float is modelled
exactly as a rational (the claims settled here do not depend on double
rounding of the parsed value). -/
def specValue (sp : ChunkSpec) : ℚ :=
  (digitsToNat sp.intPart : ℚ) +
    (match sp.fracPart with
     | none => 0
     | some fs => (digitsToNat fs : ℚ) / 10 ^ fs.length)

/-- `ChunkingHelper.parse_chunk_size` translated from the source: empty input
defaults to 200000; otherwise upper-case and strip, match the pattern (error
when it fails), scale by the unit, truncate to an integer, and reject
non-positive results with the second error message. -/
def parse_chunk_size (s : List Char) : Except (List Char) Int :=
  if s = [] then .ok 200000
  else
    let t := pyStrip (pyUpper s)
    match matchChunkSize t with
    | none => .error (str "Invalid chunk size format")
    | some sp =>
      let q := specValue sp
      let result : Int :=
        match sp.unit with
        | some 'K' => ⌊q * 1000⌋
        | some 'M' => ⌊q * 1000000⌋
        | _ => ⌊q⌋
      if result ≤ 0 then .error (str "Chunk size must be positive")
      else .ok result

/-- The observable steps of one run of `main`, in order. -/
inductive MainEvent where
  | extractAttempt
  | extractFailed
  | summarize
  | chunkSizeError
  | noData
  | planned (n : Nat)
  | savedChunks
  | saveChunksFailed
  | savedSingleFiles
deriving DecidableEq

/-- Trace and exit status of one run; exit code 0 is the normal end of the
process, 1 is the code passed to sys.exit on every fatal path. -/
structure RunResult where
  trace : List MainEvent
  exitCode : Nat
deriving DecidableEq

/-- A row of the urls table as consumed by `extract_data` (hidden rows and
rows with empty url are already excluded by the query). -/
structure RawUrl where
  id : Int
  url : List Char
  title : Option (List Char)
  visit_count : Int
  typed_count : Int
  last_visit_time : Int
deriving DecidableEq

/-- A row of the visits table, in the descending visit-time order produced by
the query. -/
structure RawVisit where
  url_id : Int
  visit_time : Int
  duration : Int
  transition : Int
  referrer : Option (List Char)
deriving DecidableEq

/-- A row of the keyword_search_terms table. -/
structure RawSearch where
  url_id : Int
  term : List Char
deriving DecidableEq

/-- One visits-list element as built in `extract_data`; the timestamp
converter is the parameter `conv`. -/
def visitDetail (conv : Int → List Char) (v : RawVisit) : VisitDetail :=
  { visit_time := conv v.visit_time,
    visit_timestamp := v.visit_time,
    duration := v.duration,
    transition := v.transition,
    referrer := v.referrer.getD [] }

/-- The assembly loop of `HistoryExtractor.extract_data` translated from the
source: skip url rows whose url is empty or whitespace-only, default the
title, group visits and search terms by owning url id (preserving input
order, as the defaultdict append does), convert the timestamp with `conv`
and classify. -/
def assembleEntries (conv : Int → List Char) (urls : List RawUrl)
    (visits : List RawVisit) (searches : List RawSearch) : List HistoryEntry :=
  urls.filterMap (fun u =>
    if u.url = [] ∨ pyStrip u.url = [] then none
    else some
      { id := u.id,
        url := u.url,
        title := match u.title with
                 | none => str "No Title"
                 | some t => if t = [] then str "No Title" else t,
        visit_count := u.visit_count,
        typed_count := u.typed_count,
        last_visit_time := conv u.last_visit_time,
        last_visit_timestamp := u.last_visit_time,
        domain := extract_domain u.url,
        visits := (visits.filter (fun v => v.url_id == u.id)).map (visitDetail conv),
        search_terms := (searches.filter (fun t => t.url_id == u.id)).map
          (fun t => t.term),
        category := categorize_url u.url (u.title.getD []) })

/-- The comparison used for the final sort of `extract_data`: sort by raw
last-visit timestamp, most recent first. A stable merge sort with this
comparison is the model of the Python stable sort with reverse=True. -/
def entryGE (a b : HistoryEntry) : Bool :=
  decide (b.last_visit_timestamp ≤ a.last_visit_timestamp)

/-- `HistoryExtractor.extract_data` translated from the source (the database
reads are the three raw record streams; success of the reads is handled in
`mainRun`): assemble, then stable-sort by last visit timestamp descending. -/
def extract_data (conv : Int → List Char) (urls : List RawUrl)
    (visits : List RawVisit) (searches : List RawSearch) : List HistoryEntry :=
  (assembleEntries conv urls visits searches).mergeSort entryGE

/-- Insertion-ordered counter update, the model of a Python
defaultdict(int) increment. -/
def bumpCount (k : List Char) : List (List Char × Nat) → List (List Char × Nat)
  | [] => [(k, 1)]
  | (k2, n) :: rest =>
    if k2 = k then (k2, n + 1) :: rest else (k2, n) :: bumpCount k rest

/-- Counts keyed by `f`, in first-seen order. -/
def countBy (f : HistoryEntry → List Char) (entries : List HistoryEntry) :
    List (List Char × Nat) :=
  entries.foldl (fun acc e => bumpCount (f e) acc) []

/-- Python string less-than: lexicographic by code point. -/
def strLtB : List Char → List Char → Bool
  | [], [] => false
  | [], _ :: _ => true
  | _ :: _, [] => false
  | a :: as, b :: bs =>
    if a.toNat < b.toNat then true
    else if b.toNat < a.toNat then false
    else strLtB as bs

/-- Python `min(iterable, default=d)` with strict comparison `lt`. -/
def pyMin (lt : List Char → List Char → Bool) (d : List Char) :
    List (List Char) → List Char
  | [] => d
  | x :: xs => xs.foldl (fun acc y => if lt y acc then y else acc) x

/-- Python `max(iterable, default=d)` with strict comparison `lt`. -/
def pyMax (lt : List Char → List Char → Bool) (d : List Char) :
    List (List Char) → List Char
  | [] => d
  | x :: xs => xs.foldl (fun acc y => if lt acc y then y else acc) x

/-- The summary dictionary built by `generate_summary` for a non-empty entry
collection. -/
structure SummaryS where
  total_urls : Nat
  total_visits : Nat
  total_search_terms : Nat
  categories : List (List Char × Nat)
  top_domains : List (List Char × Nat)
  date_oldest : List Char
  date_newest : List Char
deriving DecidableEq

/-- `HistoryExtractor.generate_summary` translated from the source: the
empty entry collection short-circuits to the empty dictionary (`none`);
otherwise category and domain counts in first-seen order, visit and
search-term totals, top twenty domains by count (stable), and the
lexicographic range of the non-empty converted last-visit times. -/
def generate_summary (entries : List HistoryEntry) : Option SummaryS :=
  if entries = [] then none
  else some
    { total_urls := entries.length,
      total_visits := (entries.map (fun e => e.visits.length)).sum,
      total_search_terms := (entries.map (fun e => e.search_terms.length)).sum,
      categories := countBy (fun e => e.category) entries,
      top_domains := ((countBy (fun e => e.domain) entries).mergeSort
        (fun a b => decide (b.2 ≤ a.2))).take 20,
      date_oldest := pyMin strLtB []
        ((entries.map (fun e => e.last_visit_time)).filter (fun t => !t.isEmpty)),
      date_newest := pyMax strLtB []
        ((entries.map (fun e => e.last_visit_time)).filter (fun t => !t.isEmpty)) }

/-- The control flow of `main` translated from the source, as a trace of
observable steps plus the exit code: extraction runs first (aborting with
exit 1 when the database is missing or unreadable, modelled by `dbOk`);
the summary is generated and printed; only then, when a non-empty chunk-size
argument was supplied, is it parsed; a parse error exits with code 1; an
empty chunk plan exits with code 1; otherwise the chunks are planned and
saved (a save failure exits with code 1); without a chunk-size argument the
single-file outputs are written and the run ends normally. -/
def mainRun (dbOk : Bool) (conv : Int → List Char) (jl : HistoryEntry → Nat)
    (saveOk : Bool) (urls : List RawUrl) (visits : List RawVisit)
    (searches : List RawSearch) (chunkArg : Option (List Char)) : RunResult :=
  if dbOk = false then ⟨[.extractAttempt, .extractFailed], 1⟩
  else
    let entries := extract_data conv urls visits searches
    match chunkArg with
    | some s =>
      if s ≠ [] then
        match parse_chunk_size s with
        | .error _ => ⟨[.extractAttempt, .summarize, .chunkSizeError], 1⟩
        | .ok n =>
          let chunks := chunk_history jl n.toNat entries
          if chunks = [] then ⟨[.extractAttempt, .summarize, .noData], 1⟩
          else if saveOk then
            ⟨[.extractAttempt, .summarize, .planned chunks.length, .savedChunks], 0⟩
          else
            ⟨[.extractAttempt, .summarize, .planned chunks.length,
              .saveChunksFailed], 1⟩
      else ⟨[.extractAttempt, .summarize, .savedSingleFiles], 0⟩
    | none => ⟨[.extractAttempt, .summarize, .savedSingleFiles], 0⟩

/-- C3 counterexample: with the malformed chunk-size specifier "abc" the run
performs the extraction step (and the summary) before the specifier is
rejected, and it exits with code 1, the same exit code an extraction failure
produces, so the rejection is neither before extraction nor on a distinct
exit signal. -/
theorem main_invalid_chunk_not_before_extraction :
    MainEvent.extractAttempt ∈
      (mainRun true (fun _ => []) (fun _ => 1) true [] [] []
        (some (str "abc"))).trace
    ∧ parse_chunk_size (str "abc") = .error (str "Invalid chunk size format")
    ∧ (mainRun true (fun _ => []) (fun _ => 1) true [] [] []
        (some (str "abc"))).exitCode = 1
    ∧ (mainRun false (fun _ => []) (fun _ => 1) true [] [] []
        (some (str "abc"))).exitCode = 1 :=
  ⟨by decide, by rfl, by rfl, by rfl⟩

/-- C3 amended: a supplied malformed or non-positive chunk-size specifier is
rejected only after extraction and the summary step, but before any chunk is
planned or saved; the run then exits with code 1, which is the same exit code
as an extraction failure (the two are distinguished only by the reported
message, modelled by the distinct trace events). -/
theorem main_rejects_invalid_chunk_size (conv : Int → List Char)
    (jl : HistoryEntry → Nat) (saveOk : Bool) (urls : List RawUrl)
    (vs : List RawVisit) (ss : List RawSearch) (s msg : List Char)
    (hne : s ≠ []) (herr : parse_chunk_size s = .error msg) :
    mainRun true conv jl saveOk urls vs ss (some s) =
      ⟨[.extractAttempt, .summarize, .chunkSizeError], 1⟩
    ∧ mainRun false conv jl saveOk urls vs ss (some s) =
      ⟨[.extractAttempt, .extractFailed], 1⟩ := by
  constructor
  · unfold mainRun
    simp [hne, herr]
  · rfl

/-- Instantiation of the invalid-chunk-size theorem at a concrete run. -/
theorem main_rejects_invalid_chunk_size_witness :
    (str "abc" ≠ [])
    ∧ parse_chunk_size (str "abc") = .error (str "Invalid chunk size format")
    ∧ (mainRun true (fun _ => []) (fun _ => 1) true [] [] [] (some (str "abc")) =
        ⟨[.extractAttempt, .summarize, .chunkSizeError], 1⟩
      ∧ mainRun false (fun _ => []) (fun _ => 1) true [] [] [] (some (str "abc")) =
        ⟨[.extractAttempt, .extractFailed], 1⟩) :=
  ⟨by decide, by rfl,
    main_rejects_invalid_chunk_size (fun _ => []) (fun _ => 1) true [] [] []
      (str "abc") (str "Invalid chunk size format") (by decide) (by rfl)⟩

theorem entryGE_trans (a b c : HistoryEntry) (hab : entryGE a b)
    (hbc : entryGE b c) : entryGE a c := by
  simp only [entryGE, decide_eq_true_eq] at *
  omega

theorem entryGE_total (a b : HistoryEntry) : entryGE a b || entryGE b a := by
  simp only [entryGE, Bool.or_eq_true, decide_eq_true_eq]
  omega

/-- C8: the assembled entry collection, after the final sort of
`extract_data`, is ordered by last_visit_timestamp descending; it is a
permutation of the assembled collection; and entries with equal
last_visit_timestamp keep their relative source order (the filter at any
fixed timestamp is unchanged by the sort). This sorted sequence is the one
the run hands to chunking and summarization (see `mainRun`). -/
theorem extract_data_sorted (conv : Int → List Char) (urls : List RawUrl)
    (vs : List RawVisit) (ss : List RawSearch) :
    (extract_data conv urls vs ss).Pairwise
      (fun a b => b.last_visit_timestamp ≤ a.last_visit_timestamp)
    ∧ (extract_data conv urls vs ss).Perm (assembleEntries conv urls vs ss)
    ∧ ∀ t : Int,
        (extract_data conv urls vs ss).filter
            (fun e => e.last_visit_timestamp == t)
          = (assembleEntries conv urls vs ss).filter
            (fun e => e.last_visit_timestamp == t) := by
  refine ⟨?_, List.mergeSort_perm _ entryGE, ?_⟩
  · have hs := List.sorted_mergeSort entryGE_trans entryGE_total
      (assembleEntries conv urls vs ss)
    exact hs.imp (fun h => by simpa [entryGE] using h)
  · intro t
    have hsub : List.Sublist ((assembleEntries conv urls vs ss).filter
        (fun e => e.last_visit_timestamp == t)) (extract_data conv urls vs ss) := by
      apply List.sublist_mergeSort entryGE_trans entryGE_total
      · apply List.pairwise_of_forall_mem_list
        intro a ha b hb
        have ha' := List.of_mem_filter ha
        have hb' := List.of_mem_filter hb
        simp only [beq_iff_eq] at ha' hb'
        simp [entryGE, ha', hb']
      · exact List.filter_sublist _
    have hsub2 : List.Sublist ((assembleEntries conv urls vs ss).filter
        (fun e => e.last_visit_timestamp == t))
        ((extract_data conv urls vs ss).filter
          (fun e => e.last_visit_timestamp == t)) := by
      have h2 := hsub.filter (fun e => e.last_visit_timestamp == t)
      rw [List.filter_filter] at h2
      simpa only [Bool.and_self] using h2
    have hperm : ((extract_data conv urls vs ss).filter
        (fun e => e.last_visit_timestamp == t)).Perm
          ((assembleEntries conv urls vs ss).filter
            (fun e => e.last_visit_timestamp == t)) :=
      (List.mergeSort_perm _ entryGE).filter _
    exact (hsub2.eq_of_length hperm.length_eq.symm).symm

/-- C7 counterexample: on empty input the summary is the empty dictionary,
not a summary carrying zero counts and empty date-range strings; no summary
record exists at all. -/
theorem generate_summary_empty_counterexample :
    assembleEntries (fun _ => []) [] [] [] = []
    ∧ generate_summary (extract_data (fun _ => []) [] [] []) = none
    ∧ ¬ ∃ s : SummaryS,
        generate_summary (extract_data (fun _ => []) [] [] []) = some s := by
  refine ⟨rfl, ?_, ?_⟩
  · simp [generate_summary, extract_data, assembleEntries]
  · rintro ⟨s, hs⟩
    rw [show generate_summary (extract_data (fun _ => []) [] [] []) = none by
      simp [generate_summary, extract_data, assembleEntries]] at hs
    exact Option.noConfusion hs

/-- C7 amended: zero url records yield zero entries, the chunk planner yields
zero chunks (not one empty chunk), and `generate_summary` returns the empty
dictionary (`none`) rather than a zero-filled summary; the run reads counts
out of it with zero defaults. -/
theorem empty_input_run (conv : Int → List Char) (jl : HistoryEntry → Nat)
    (L : Nat) (vs : List RawVisit) (ss : List RawSearch) :
    assembleEntries conv [] vs ss = []
    ∧ extract_data conv [] vs ss = []
    ∧ chunk_history jl L (extract_data conv [] vs ss) = []
    ∧ generate_summary (extract_data conv [] vs ss) = none := by
  refine ⟨rfl, ?_, ?_, ?_⟩ <;>
    simp [extract_data, assembleEntries, chunk_history, generate_summary]

/-- A small concrete entry for instantiating the chunking theorems. -/
def sampleEntry (n : Int) : HistoryEntry :=
  { id := n,
    url := str "https://a.com",
    title := str "No Title",
    visit_count := 1,
    typed_count := 0,
    last_visit_time := [],
    last_visit_timestamp := n,
    domain := str "a.com",
    visits := [],
    search_terms := [],
    category := str "Other" }

/-- Instantiation of the chunk concatenation theorem at a concrete run. -/
theorem chunk_history_concat_witness :
    0 < 10
    ∧ ((chunk_history (fun _ => 8) 10
        [sampleEntry 3, sampleEntry 2, sampleEntry 1]).map Prod.fst).flatten
      = [sampleEntry 3, sampleEntry 2, sampleEntry 1] :=
  ⟨by decide,
    chunk_history_concat (fun _ => 8) 10
      [sampleEntry 3, sampleEntry 2, sampleEntry 1] (by decide)⟩

/-- Instantiation of the chunk size-bound theorem at a concrete run with one
oversized entry. -/
theorem chunk_history_size_bound_witness :
    0 < 10
    ∧ ∀ c ∈ chunk_history (fun _ => 200) 10 [sampleEntry 1],
        (c.2.warning = false →
          (c.1.map (entryTokens (fun _ => 200))).sum ≤ 10)
        ∧ (c.2.warning = true →
          ∃ e, c.1 = [e] ∧ 10 < entryTokens (fun _ => 200) e)
        ∧ (∀ e ∈ c.1, 10 < entryTokens (fun _ => 200) e →
          c.2.warning = true ∧ c.1 = [e]) :=
  ⟨by decide, chunk_history_size_bound (fun _ => 200) 10 [sampleEntry 1] (by decide)⟩

/-- Instantiation of the total-chunks back-fill theorem at a concrete run and
chunk. -/
theorem chunk_history_total_chunks_witness :
    ([sampleEntry 1],
      (⟨[str "Other"], 1, 1, 2, false, some 1⟩ : ChunkMeta)).2.total_chunks
      = some (chunk_history (fun _ => 8) 10 [sampleEntry 1]).length :=
  chunk_history_total_chunks (fun _ => 8) 10 [sampleEntry 1]
    ([sampleEntry 1], ⟨[str "Other"], 1, 1, 2, false, some 1⟩) (by decide)
